import Mathlib

/-!
# Verification of the BurgerCraft order-lifecycle core (`src/script.js`)

This file gives a shallow embedding, in Lean 4, of the order-lifecycle core of
the BurgerCraft food-ordering widget: the form validator, the pricing table,
the order builder (with its persisted counter), the order store (localStorage
persistence of the order list and the counter), and the confirmation workflow.

Modelling conventions:
* JavaScript numbers that can be `NaN` are modelled as `Option`-values
  (`none` = `NaN`); finite double values are modelled exactly as canonical
  dyadic rationals (`DoubleVal`), with `ofFrac` converting a decimal literal
  to the nearest double and `jsMul` performing double multiplication with
  round-to-nearest, ties-to-even.  The integer-valued order counter is
  modelled as `Option Int` (exact, as all its values stay far below `2^53`).
* `localStorage` is a pair of optional values: the serialized order list and
  the counter string.  `JSON.stringify`/`JSON.parse` are modelled at the level
  of JSON trees (`Json`): serializing an order object yields a JSON object
  tree; parsing reads it back.  `JSON.stringify` turns `NaN` into `null`.
* `parseInt`, `Number.prototype.toString`, `String.prototype.padStart`,
  `String.prototype.trim` and `String.prototype.replace(/\s/g, '')` are
  modelled character-by-character below.
* DOM manipulation (modal classes, notifications, table rendering) has no
  effect on the data model and is omitted from the state.
-/

/-! ## Character utilities -/

/-- The characters matched by the JavaScript regex class `\s`
(whitespace, incl. NBSP, BOM and the Unicode space block). -/
def isJsSpace (c : Char) : Bool :=
  let n := c.toNat
  n = 32 ∨ n = 9 ∨ n = 10 ∨ n = 11 ∨ n = 12 ∨ n = 13 ∨ n = 160 ∨ n = 0x1680 ∨
    (0x2000 ≤ n ∧ n ≤ 0x200a) ∨ n = 0x2028 ∨ n = 0x2029 ∨ n = 0x202f ∨
    n = 0x205f ∨ n = 0x3000 ∨ n = 0xfeff

/-- Decimal digit characters `0`..`9` (the JS regex class `\d`). -/
def isDigitChar (c : Char) : Bool :=
  48 ≤ c.toNat ∧ c.toNat ≤ 57

/-- `phone.replace(/\s/g, '')`: remove every whitespace character. -/
def stripSpaces (s : String) : String :=
  ⟨s.data.filter (fun c => !isJsSpace c)⟩

/-- `String.prototype.trim`: drop whitespace from both ends. -/
def jsTrim (s : String) : String :=
  ⟨(s.data.dropWhile isJsSpace).reverse.dropWhile isJsSpace |>.reverse⟩

/-- `String.prototype.padStart(len, pad)` with a one-character pad string. -/
def padStart (s : String) (len : Nat) (pad : Char) : String :=
  if len ≤ s.length then s else ⟨List.replicate (len - s.length) pad ++ s.data⟩

/-! ## `Number.prototype.toString` for integers -/

/-- Decimal digit character of `d` (meaningful for `d < 10`). -/
def digitChar10 (d : Nat) : Char := Char.ofNat (48 + d % 10)

/-- Big-endian decimal digit characters of `n`; `fuel`-structural so that the
kernel can evaluate it (any `fuel > n` computes the digits of `n`). -/
def natToChars : Nat → Nat → List Char
  | 0, _ => []
  | fuel + 1, n =>
    if n < 10 then [digitChar10 n]
    else natToChars fuel (n / 10) ++ [digitChar10 (n % 10)]

/-- `Number.prototype.toString` (base 10) on a natural number. -/
def natToString (n : Nat) : String := ⟨natToChars (n + 1) n⟩

/-- `Number.prototype.toString` / `String(...)` on a JS number that may be
`NaN` (`none`): `String(NaN)` is `"NaN"`. -/
def jsNumToString : Option Int → String
  | none => "NaN"
  | some i =>
    if i < 0 then ⟨'-' :: (natToString i.natAbs).data⟩ else natToString i.toNat

/-! ## `parseInt` -/

/-- Value of a character as a digit in bases up to 36 (as `parseInt` reads
them), `none` if it is not alphanumeric. -/
def charVal (c : Char) : Option Nat :=
  let n := c.toNat
  if 48 ≤ n ∧ n ≤ 57 then some (n - 48)
  else if 97 ≤ n ∧ n ≤ 122 then some (n - 87)
  else if 65 ≤ n ∧ n ≤ 90 then some (n - 55)
  else none

/-- Value of a character as a digit of the given radix, if it is one. -/
def digitVal (radix : Nat) (c : Char) : Option Nat :=
  match charVal c with
  | some v => if v < radix then some v else none
  | none => none

/-- Strip an optional sign character, returning the sign. -/
def splitSign (cs : List Char) : Int × List Char :=
  match cs with
  | [] => (1, [])
  | c :: rest =>
    if c = '-' then (-1, rest)
    else if c = '+' then (1, rest)
    else (1, c :: rest)

/-- Detect the `0x`/`0X` hex prefix of `parseInt` with no radix argument. -/
def splitRadix (cs : List Char) : Nat × List Char :=
  match cs with
  | c0 :: c1 :: rest =>
    if c0 = '0' ∧ (c1 = 'x' ∨ c1 = 'X') then (16, rest)
    else (10, c0 :: c1 :: rest)
  | _ => (10, cs)

/-- Accumulate the numeric value of a digit string. -/
def digitsVal (radix : Nat) (ds : List Char) : Nat :=
  ds.foldl (fun a c => a * radix + (digitVal radix c).getD 0) 0

/-- The unsigned part of `parseInt`: radix detection, then the longest digit
prefix; `none` when there is no digit (JS `NaN`). -/
def parseIntCore (cs : List Char) : Option Nat :=
  let rs := splitRadix cs
  let ds := rs.2.takeWhile (fun c => (digitVal rs.1 c).isSome)
  if ds.isEmpty then none else some (digitsVal rs.1 ds)

/-- JavaScript `parseInt(s)` (no radix argument): skip leading whitespace,
read an optional sign, an optional `0x` prefix, then the longest digit prefix;
result `none` models `NaN`. -/
def parseIntJS (s : String) : Option Int :=
  let cs := s.data.dropWhile isJsSpace
  let sc := splitSign cs
  (parseIntCore sc.2).map (fun n => sc.1 * n)

/-! ## IEEE-754 binary64 ("double") values

A finite double value is modelled exactly as a dyadic rational
`m * 2 ^ e` in canonical form (`m` odd, or `m = 0` and `e = 0`), so that
structural equality coincides with value equality.  `ofFrac` converts a
decimal literal (as an exact fraction) to the nearest double with
round-to-nearest, ties-to-even; `jsMul` is double multiplication (exact
product, then the same rounding).  The magnitudes arising in this program are
normal and far from overflow, so the unbounded exponent is faithful. -/

/-- A finite binary64 value `m * 2 ^ e` in canonical form. -/
structure DoubleVal where
  m : Int
  e : Int
deriving Repr, DecidableEq

/-- Fuel-structural `⌊log₂ n⌋` on naturals (any `fuel ≥ n` is enough),
so that the kernel can evaluate it. -/
def log2Fuel : Nat → Nat → Nat
  | 0, _ => 0
  | fuel + 1, n => if n ≤ 1 then 0 else log2Fuel fuel (n / 2) + 1

/-- Number of binary digits of `n` (`0` for `0`). -/
def bitlen (n : Nat) : Nat :=
  if n = 0 then 0 else log2Fuel n n + 1

/-- Strip up to `fuel` factors of two, returning the odd part and the number
of factors removed. -/
def oddPart : Nat → Nat → Nat × Nat
  | 0, m => (m, 0)
  | fuel + 1, m =>
    if m % 2 = 0 ∧ m ≠ 0 then
      let r := oddPart fuel (m / 2)
      (r.1, r.2 + 1)
    else (m, 0)

/-- Canonicalize a dyadic `m * 2 ^ e` (strip trailing zero bits of the
mantissa; `64` fuel covers every mantissa of at most `2 ^ 53`). -/
def canonD (m : Int) (e : Int) : DoubleVal :=
  if m = 0 then ⟨0, 0⟩
  else
    let r := oddPart 64 m.natAbs
    ⟨if m < 0 then -(r.1 : Int) else (r.1 : Int), e + (r.2 : Int)⟩

/-- Round an integer to at most 53 significant bits (round to nearest, ties
to even), as a mantissa-exponent pair. -/
def roundMantissa (v : Int) : Int × Int :=
  let a := v.natAbs
  let b := bitlen a
  if b ≤ 53 then (v, 0)
  else
    let t := b - 53
    let m0 := a / 2 ^ t
    let r := a % 2 ^ t
    let half := 2 ^ (t - 1)
    let m : Nat :=
      if r < half then m0
      else if half < r then m0 + 1
      else if m0 % 2 = 0 then m0 else m0 + 1
    (if v < 0 then -(m : Int) else (m : Int), (t : Int))

/-- Does `2 ^ z ≤ a / d` hold (for naturals `a, d ≥ 1`)? -/
def le2pow (z : Int) (a d : Nat) : Bool :=
  if 0 ≤ z then d * 2 ^ z.toNat ≤ a else d ≤ a * 2 ^ (-z).toNat

/-- The nearest binary64 value to the exact fraction `n / d` (ties to even):
the value of a JS decimal literal such as `12.99 = ofFrac 1299 100`. -/
def ofFrac (n : Int) (d : Nat) : DoubleVal :=
  if n = 0 then ⟨0, 0⟩
  else
    let a := n.natAbs
    let l : Int := (bitlen a : Int) - (bitlen d : Int)
    let fl := if le2pow l a d then l else l - 1
    let e := fl - 52
    let nd : Nat × Nat :=
      if 0 ≤ e then (a, d * 2 ^ e.toNat) else (a * 2 ^ (-e).toNat, d)
    let m0 := nd.1 / nd.2
    let r := nd.1 % nd.2
    let m : Nat :=
      if 2 * r < nd.2 then m0
      else if nd.2 < 2 * r then m0 + 1
      else if m0 % 2 = 0 then m0 else m0 + 1
    canonD (if n < 0 then -(m : Int) else (m : Int)) e

/-- The double denoted by an integer-valued JS number (exact below `2^53`). -/
def intToDouble (k : Int) : DoubleVal :=
  let r := roundMantissa k
  canonD r.1 r.2

/-- Double multiplication: exact product of the dyadic values, rounded to
the nearest double. -/
def jsMul (a b : DoubleVal) : DoubleVal :=
  if a.m = 0 ∨ b.m = 0 then ⟨0, 0⟩
  else
    let r := roundMantissa (a.m * b.m)
    canonD r.1 (r.2 + a.e + b.e)

/-! ## Phone validation (`isValidPhoneNumber`, script.js:234-237)

The regex is `/^[\+]?[1-9][\d]{0,15}$|^[\(]?[\d\s\-\(\)]{10,}$/`, tested
against `phone.replace(/\s/g, '')`. -/

/-- First alternative `^[\+]?[1-9][\d]{0,15}$`: optional `+`, a first digit
`1`-`9`, then at most 15 further digits. -/
def matchesIntl (cs : List Char) : Bool :=
  let cs1 := match cs with
    | '+' :: rest => rest
    | other => other
  match cs1 with
  | [] => false
  | d :: ds => (49 ≤ d.toNat && d.toNat ≤ 57) && ds.length ≤ 15 && ds.all isDigitChar

/-- The character class `[\d\s\-\(\)]`. -/
def isLooseChar (c : Char) : Bool :=
  isDigitChar c || isJsSpace c || c = '-' || c = '(' || c = ')'

/-- Second alternative `^[\(]?[\d\s\-\(\)]{10,}$`: optional `(`, then at
least 10 characters of the class (either the `(` is absorbed by the class,
or it is consumed by the optional prefix and 10 class characters follow). -/
def matchesLoose (cs : List Char) : Bool :=
  (10 ≤ cs.length && cs.all isLooseChar) ||
  (match cs with
   | c :: t => c = '(' && 10 ≤ t.length && t.all isLooseChar
   | [] => false)

/-- `isValidPhoneNumber` (script.js:234-237): the regex is applied to the
string with all whitespace removed. -/
def isValidPhoneNumber (phone : String) : Bool :=
  let stripped := (stripSpaces phone).data
  matchesIntl stripped || matchesLoose stripped

/-! ## Form input and the validator (`validateForm`, script.js:178-204) -/

/-- Raw form surface read by the handlers: text field values, the checked
radio button (if any), the quantity select value, and the current clock's
ISO timestamp (an oracle input). -/
structure RawForm where
  customerName : String
  phoneNumber : String
  hamburgerType : Option String
  quantityValue : String
  specialInstructions : String
  orderDate : String
deriving Repr, DecidableEq

/-- Result of `validateForm`: the field error messages it would display,
plus the returned boolean. -/
structure ValidationResult where
  nameError : Option String
  phoneError : Option String
  burgerError : Option String
  isValid : Bool
deriving Repr, DecidableEq

/-- `validateForm` (script.js:178-204).  The phone check passes the
*untrimmed* field value to `isValidPhoneNumber` (which strips whitespace
itself anyway). -/
def validateForm (raw : RawForm) : ValidationResult :=
  let nameError :=
    if jsTrim raw.customerName = "" then some "Customer name is required" else none
  let phoneError :=
    if jsTrim raw.phoneNumber = "" then some "Phone number is required"
    else if !isValidPhoneNumber raw.phoneNumber then
      some "Please enter a valid phone number"
    else none
  let burgerError :=
    match raw.hamburgerType with
    | none => some "Please select a burger type"
    | some _ => none
  { nameError := nameError, phoneError := phoneError, burgerError := burgerError,
    isValid := nameError.isNone && phoneError.isNone && burgerError.isNone }

/-! ## Pricing table (`getBurgerPrice`, script.js:156-164) -/

/-- The object literal `prices` of `getBurgerPrice`; prices are the doubles
denoted by the JS literals. -/
def burgerPrices : List (String × DoubleVal) :=
  [("Classic Beef Burger", ofFrac 1299 100),
   ("Grilled Chicken Burger", ofFrac 1199 100),
   ("Plant-Based Veggie Burger", ofFrac 1099 100),
   ("Deluxe BBQ Burger", ofFrac 1599 100)]

/-- The property names every object literal inherits from
`Object.prototype` (ECMA-262, plus the Annex B accessor properties present
in browsers).  Reading any of them on the `prices` literal yields the
inherited member — a function, or for `"__proto__"` the `Object.prototype`
object itself — which is truthy, so the `|| 12.99` fallback does not
apply. -/
def objectPrototypeKeys : List String :=
  ["constructor", "hasOwnProperty", "isPrototypeOf", "propertyIsEnumerable",
   "toLocaleString", "toString", "valueOf", "__proto__", "__defineGetter__",
   "__defineSetter__", "__lookupGetter__", "__lookupSetter__"]

/-- The value of reading a property of the `prices` object literal: either a
number (an own catalog price, or the numeric default after the `||`), or a
member inherited from `Object.prototype`, identified by its property
name. -/
inductive JsValue where
  | num : DoubleVal → JsValue
  | inherited : String → JsValue
deriving Repr, DecidableEq

/-- `getBurgerPrice` (script.js:156-164): `prices[burgerType] || 12.99`.
JS property lookup consults the literal's own keys first and then the
prototype chain: an own catalog price is returned (none is falsy); an
`Object.prototype` member is an inherited truthy value and is returned
as-is; only a genuinely absent key gives `undefined`, which is falsy, so
the `||` yields the default 12.99. -/
def getBurgerPrice (burgerType : String) : JsValue :=
  match burgerPrices.lookup burgerType with
  | some p => JsValue.num p
  | none =>
    if burgerType ∈ objectPrototypeKeys then JsValue.inherited burgerType
    else JsValue.num (ofFrac 1299 100)

/-- The numeric price used by the Order Builder: catalog lookup with the
12.99 default.  It agrees with `getBurgerPrice` on every key that is not an
`Object.prototype` member name (`getBurgerPrice_eq_num`); the builder is
modelled with it because the form's radio buttons supply only the four
catalog names, on which the two coincide.  (For one of the twelve inherited
names the real code would store the inherited function in the order and
later crash the renderer; that path is outside every claim about built
orders.) -/
def catalogPrice (burgerType : String) : DoubleVal :=
  (burgerPrices.lookup burgerType).getD (ofFrac 1299 100)

/-! ## Orders and JSON persistence (script.js:133-151, 606-649) -/

/-- The order record built by `collectFormData` (script.js:133-151).
`quantity` and `totalPrice` are JS numbers that can be `NaN` (`none`):
`quantity` comes from `parseInt` of the select value and `totalPrice` is
`unitPrice * quantity`. -/
structure Order where
  customerName : String
  phoneNumber : String
  hamburgerType : String
  quantity : Option DoubleVal
  specialInstructions : String
  unitPrice : DoubleVal
  totalPrice : Option DoubleVal
  status : String
  orderDate : String
  orderId : String
deriving Repr, DecidableEq

/-- JSON trees, the common shape of `JSON.stringify` output and
`JSON.parse` input.  (`JSON.parse ∘ JSON.stringify` is the identity on
trees of plain objects, strings and finite numbers, so persistence is
modelled at the tree level.) -/
inductive Json where
  | jnull : Json
  | jbool : Bool → Json
  | jnum : DoubleVal → Json
  | jstr : String → Json
  | jarr : List Json → Json
  | jobj : List (String × Json) → Json

/-- `JSON.stringify` on a possibly-`NaN` number: `NaN` becomes `null`. -/
def encodeNum : Option DoubleVal → Json
  | none => Json.jnull
  | some v => Json.jnum v

/-- `JSON.stringify` of an order object: one JSON object with the fields in
the literal order of `collectFormData`. -/
def orderToJson (o : Order) : Json :=
  Json.jobj
    [("customerName", Json.jstr o.customerName),
     ("phoneNumber", Json.jstr o.phoneNumber),
     ("hamburgerType", Json.jstr o.hamburgerType),
     ("quantity", encodeNum o.quantity),
     ("specialInstructions", Json.jstr o.specialInstructions),
     ("unitPrice", Json.jnum o.unitPrice),
     ("totalPrice", encodeNum o.totalPrice),
     ("status", Json.jstr o.status),
     ("orderDate", Json.jstr o.orderDate),
     ("orderId", Json.jstr o.orderId)]

/-- First value bound to a key in a JSON object. -/
def getField (fields : List (String × Json)) (key : String) : Option Json :=
  match fields with
  | [] => none
  | (k, v) :: rest => if k = key then some v else getField rest key

/-- Read a JSON value back as a string field. -/
def asStr : Json → Option String
  | Json.jstr s => some s
  | _ => none

/-- Read a JSON value back as a (non-`NaN`) number field. -/
def asNum : Json → Option DoubleVal
  | Json.jnum v => some v
  | _ => none

/-- Read a parsed JSON tree back as an order record.  A `null` numeric field
(the serialization of `NaN`) does not read back as a number, so an order
whose `quantity` or `totalPrice` was `NaN` is not recovered. -/
def orderOfJson (j : Json) : Option Order :=
  match j with
  | Json.jobj fs => do
    let customerName ← getField fs "customerName" >>= asStr
    let phoneNumber ← getField fs "phoneNumber" >>= asStr
    let hamburgerType ← getField fs "hamburgerType" >>= asStr
    let quantity ← getField fs "quantity" >>= asNum
    let specialInstructions ← getField fs "specialInstructions" >>= asStr
    let unitPrice ← getField fs "unitPrice" >>= asNum
    let totalPrice ← getField fs "totalPrice" >>= asNum
    let status ← getField fs "status" >>= asStr
    let orderDate ← getField fs "orderDate" >>= asStr
    let orderId ← getField fs "orderId" >>= asStr
    pure
      { customerName := customerName, phoneNumber := phoneNumber,
        hamburgerType := hamburgerType, quantity := some quantity,
        specialInstructions := specialInstructions, unitPrice := unitPrice,
        totalPrice := some totalPrice, status := status,
        orderDate := orderDate, orderId := orderId }
  | _ => none

/-- `JSON.stringify(this.orders)`. -/
def encodeOrders (os : List Order) : Json :=
  Json.jarr (os.map orderToJson)

/-- Read a parsed JSON tree back as the order list. -/
def decodeOrders (j : Json) : Option (List Order) :=
  match j with
  | Json.jarr js => js.mapM orderOfJson
  | _ => none

/-- The two `localStorage` keys used by the application:
`burgercraft_orders` (serialized order list) and
`burgercraft_order_counter` (the counter as a string). -/
structure Storage where
  ordersJson : Option Json
  counterStr : Option String

/-- `loadOrdersFromStorage` (script.js:617-625): absent or unreadable
storage degrades to the empty list. -/
def loadOrdersFromStorage (st : Storage) : List Order :=
  match st.ordersJson with
  | none => []
  | some j => (decodeOrders j).getD []

/-- `loadOrderCounterFromStorage` (script.js:641-649):
`stored ? parseInt(stored) : 1000`.  The empty string is falsy in JS, so it
also yields 1000; any other string goes through `parseInt`, whose result is
the counter (a JS number, `none` = `NaN`).  The function never throws: the
`try/catch` only guards the storage read itself. -/
def loadOrderCounterFromStorage (st : Storage) : Option Int :=
  match st.counterStr with
  | none => some 1000
  | some s => if s = "" then some 1000 else parseIntJS s

/-! ## Application state and operations (script.js:19-29, 111-392) -/

/-- The mutable state of `BurgerCraftApp` relevant to the order lifecycle:
`this.orders`, `this.orderCounter` (a JS number, `none` = `NaN`),
`this.currentOrder` (the draft awaiting confirmation) and the backing
`localStorage`. -/
structure AppState where
  orders : List Order
  orderCounter : Option Int
  currentOrder : Option Order
  storage : Storage

/-- `saveOrdersToStorage` (script.js:606-612). -/
def saveOrdersToStorage (s : AppState) : AppState :=
  { s with storage := { s.storage with ordersJson := some (encodeOrders s.orders) } }

/-- `saveOrderCounterToStorage` (script.js:630-636):
`this.orderCounter.toString()`. -/
def saveOrderCounterToStorage (s : AppState) : AppState :=
  { s with storage := { s.storage with counterStr := some (jsNumToString s.orderCounter) } }

/-- `generateOrderId` (script.js:169-173): increment the counter, persist it,
and return `` `BC${String(this.orderCounter).padStart(4, '0')}` ``. -/
def generateOrderId (s : AppState) : String × AppState :=
  let s1 := { s with orderCounter := s.orderCounter.map (· + 1) }
  let s2 := saveOrderCounterToStorage s1
  ("BC" ++ padStart (jsNumToString s2.orderCounter) 4 '0', s2)

/-- `collectFormData` (script.js:133-151).  The caller guarantees a burger is
selected (`document.querySelector(':checked')` is non-null); with no
selection the JS code would throw, so the model reads the selection with an
irrelevant `""` default. -/
def collectFormData (raw : RawForm) (s : AppState) : Order × AppState :=
  let selectedBurger := raw.hamburgerType.getD ""
  let quantity := (parseIntJS raw.quantityValue).map intToDouble
  let burgerPrice := catalogPrice selectedBurger
  let totalPrice := quantity.map (fun q => jsMul burgerPrice q)
  let ids := generateOrderId s
  ({ customerName := jsTrim raw.customerName,
     phoneNumber := jsTrim raw.phoneNumber,
     hamburgerType := selectedBurger,
     quantity := quantity,
     specialInstructions :=
       if jsTrim raw.specialInstructions = "" then "None"
       else jsTrim raw.specialInstructions,
     unitPrice := burgerPrice,
     totalPrice := totalPrice,
     status := "Pending",
     orderDate := raw.orderDate,
     orderId := ids.1 }, ids.2)

/-- `handleFormSubmit` (script.js:111-128): on invalid input only error
display happens (no state change); on valid input the draft is built and
held in `this.currentOrder` while the confirmation modal is shown. -/
def handleFormSubmit (raw : RawForm) (s : AppState) : AppState :=
  if (validateForm raw).isValid then
    let os := collectFormData raw s
    { os.2 with currentOrder := some os.1 }
  else s

/-- `closeConfirmationModal` (script.js:360-364): hide the modal and discard
the draft (`this.currentOrder = null`).  Cancel, edit, outside click and
Escape all call exactly this. -/
def closeConfirmationModal (s : AppState) : AppState :=
  { s with currentOrder := none }

/-- `confirmOrder` (script.js:369-392): a no-op without an outstanding
draft; otherwise `unshift` the draft onto the order list, persist the list,
then close the confirmation modal (clearing the draft).  The remaining
statements are presentation only. -/
def confirmOrder (s : AppState) : AppState :=
  match s.currentOrder with
  | none => s
  | some o =>
    let s1 := { s with orders := o :: s.orders }
    let s2 := saveOrdersToStorage s1
    closeConfirmationModal s2

/-- The constructor of `BurgerCraftApp` (script.js:20-29): rehydrate orders
and counter from storage, no draft. -/
def initApp (st : Storage) : AppState :=
  { orders := loadOrdersFromStorage st,
    orderCounter := loadOrderCounterFromStorage st,
    currentOrder := none,
    storage := st }

/-- Fresh storage: both keys absent. -/
def emptyStorage : Storage := ⟨none, none⟩

/-! ## User-visible events

The discrete events the core reacts to: a form submission (with the raw
form contents at that moment), a confirmation click, a cancel/edit/dismiss
of the confirmation modal, and a page reload (restart), which re-runs the
constructor on the persisted storage. -/

inductive Event where
  | submit (raw : RawForm)
  | confirm
  | cancel
  | restart
deriving DecidableEq

/-- One step of the application on an event. -/
def stepEvent (s : AppState) : Event → AppState
  | Event.submit raw => handleFormSubmit raw s
  | Event.confirm => confirmOrder s
  | Event.cancel => closeConfirmationModal s
  | Event.restart => initApp s.storage

/-- Run a sequence of events. -/
def runState (s : AppState) : List Event → AppState
  | [] => s
  | e :: es => runState (stepEvent s e) es

/-- The order ids assigned by one event (a successfully validated submit
builds one order and assigns one id; nothing else does). -/
def submitIds (s : AppState) : Event → List String
  | Event.submit raw =>
    if (validateForm raw).isValid then [(collectFormData raw s).1.orderId] else []
  | _ => []

/-- All order ids assigned along a run, in assignment order. -/
def runIds (s : AppState) : List Event → List String
  | [] => []
  | e :: es => submitIds s e ++ runIds (stepEvent s e) es

/-- The sequence number encoded in an assigned order id: the numeric value
after the `"BC"` tag. -/
def seqOfId (id : String) : Option Int :=
  parseIntJS ⟨id.data.drop 2⟩

/-! ## Digit and round-trip lemmas for `toString`/`parseInt` -/

theorem digitChar10_isDigit : ∀ d, d < 10 → isDigitChar (digitChar10 d) = true := by
  decide

theorem digitChar10_val : ∀ d, d < 10 → digitVal 10 (digitChar10 d) = some d := by
  decide

theorem isDigitChar_not_space {c : Char} (h : isDigitChar c = true) :
    isJsSpace c = false := by
  simp only [isDigitChar, decide_eq_true_eq] at h
  simp only [isJsSpace, decide_eq_false_iff_not]
  omega

theorem isDigitChar_ne_dash {c : Char} (h : isDigitChar c = true) : c ≠ '-' := by
  rintro rfl
  exact absurd h (by decide)

theorem isDigitChar_ne_plus {c : Char} (h : isDigitChar c = true) : c ≠ '+' := by
  rintro rfl
  exact absurd h (by decide)

theorem isDigitChar_ne_x {c : Char} (h : isDigitChar c = true) : c ≠ 'x' := by
  rintro rfl
  exact absurd h (by decide)

theorem isDigitChar_ne_X {c : Char} (h : isDigitChar c = true) : c ≠ 'X' := by
  rintro rfl
  exact absurd h (by decide)

theorem digitVal_of_digit {c : Char} (h : isDigitChar c = true) :
    digitVal 10 c = some (c.toNat - 48) := by
  simp only [isDigitChar, decide_eq_true_eq] at h
  unfold digitVal charVal
  rw [if_pos h]
  exact if_pos (by omega)

theorem natToChars_digits :
    ∀ fuel n, n < fuel → ∀ c ∈ natToChars fuel n, isDigitChar c = true := by
  intro fuel
  induction fuel with
  | zero => intro n h; omega
  | succ f ih =>
    intro n h c hc
    rw [natToChars] at hc
    by_cases h10 : n < 10
    · rw [if_pos h10] at hc
      simp only [List.mem_singleton] at hc
      subst hc
      exact digitChar10_isDigit n h10
    · rw [if_neg h10] at hc
      have hdiv : n / 10 < n := Nat.div_lt_self (by omega) (by omega)
      rcases List.mem_append.mp hc with hc | hc
      · exact ih (n / 10) (by omega) c hc
      · simp only [List.mem_singleton] at hc
        subst hc
        exact digitChar10_isDigit (n % 10) (Nat.mod_lt _ (by omega))

theorem natToChars_ne_nil : ∀ fuel n, n < fuel → natToChars fuel n ≠ [] := by
  intro fuel n h
  cases fuel with
  | zero => omega
  | succ f =>
    rw [natToChars]
    by_cases h10 : n < 10
    · rw [if_pos h10]; simp
    · rw [if_neg h10]; simp

theorem natToChars_foldl :
    ∀ fuel n a, n < fuel →
      (natToChars fuel n).foldl (fun acc c => acc * 10 + (digitVal 10 c).getD 0) a
        = a * 10 ^ (natToChars fuel n).length + n := by
  intro fuel
  induction fuel with
  | zero => intro n a h; omega
  | succ f ih =>
    intro n a h
    rw [natToChars]
    by_cases h10 : n < 10
    · rw [if_pos h10]
      simp [digitChar10_val n h10]
    · rw [if_neg h10]
      have hdiv : n / 10 < n := Nat.div_lt_self (by omega) (by omega)
      rw [List.foldl_append, ih (n / 10) a (by omega)]
      simp only [List.length_append, List.length_singleton, List.foldl_cons,
        List.foldl_nil]
      rw [digitChar10_val (n % 10) (Nat.mod_lt _ (by omega))]
      simp only [Option.getD_some]
      rw [pow_succ]
      have := Nat.div_add_mod n 10
      ring_nf
      omega

theorem natToChars_length_ge :
    ∀ fuel n k, n < fuel → 10 ^ k ≤ n → k + 1 ≤ (natToChars fuel n).length := by
  intro fuel
  induction fuel with
  | zero => intro n k h; omega
  | succ f ih =>
    intro n k h hk
    rw [natToChars]
    by_cases h10 : n < 10
    · have hk0 : k = 0 := by
        by_contra hne
        have h1 : 1 ≤ k := by omega
        have : (10 : Nat) ^ 1 ≤ 10 ^ k := Nat.pow_le_pow_right (by omega) h1
        simp at this
        omega
      subst hk0
      rw [if_pos h10]
      simp
    · rw [if_neg h10]
      have hdiv : n / 10 < n := Nat.div_lt_self (by omega) (by omega)
      simp only [List.length_append, List.length_singleton]
      cases k with
      | zero => omega
      | succ j =>
        have hj : 10 ^ j ≤ n / 10 := by
          rw [Nat.le_div_iff_mul_le (by omega)]
          calc 10 ^ j * 10 = 10 ^ (j + 1) := (pow_succ 10 j).symm
          _ ≤ n := hk
        have := ih (n / 10) j (by omega) hj
        omega

theorem dropWhile_space_of_digits {cs : List Char}
    (h : ∀ c ∈ cs, isDigitChar c = true) : cs.dropWhile isJsSpace = cs := by
  cases cs with
  | nil => rfl
  | cons c t =>
    exact List.dropWhile_cons_of_neg
      (by simp [isDigitChar_not_space (h c (List.mem_cons_self c t))])

theorem splitSign_of_digits {cs : List Char} (hne : cs ≠ [])
    (h : ∀ c ∈ cs, isDigitChar c = true) : splitSign cs = (1, cs) := by
  cases cs with
  | nil => exact absurd rfl hne
  | cons c t =>
    have hc := h c (List.mem_cons_self c t)
    rw [splitSign, if_neg (isDigitChar_ne_dash hc), if_neg (isDigitChar_ne_plus hc)]

theorem splitRadix_of_digits {cs : List Char}
    (h : ∀ c ∈ cs, isDigitChar c = true) : splitRadix cs = (10, cs) := by
  match cs with
  | [] => rfl
  | [c] => rfl
  | c0 :: c1 :: rest =>
    rw [splitRadix, if_neg]
    rintro ⟨h0, h1⟩
    have hc1 := h c1 (by simp)
    rcases h1 with rfl | rfl
    · exact isDigitChar_ne_x hc1 rfl
    · exact isDigitChar_ne_X hc1 rfl

theorem takeWhile_of_digits {cs : List Char}
    (h : ∀ c ∈ cs, isDigitChar c = true) :
    cs.takeWhile (fun c => (digitVal 10 c).isSome) = cs :=
  List.takeWhile_eq_self_iff.mpr fun c hc => by
    rw [digitVal_of_digit (h c hc)]
    rfl

theorem parseIntCore_digits {cs : List Char} (hne : cs ≠ [])
    (h : ∀ c ∈ cs, isDigitChar c = true) :
    parseIntCore cs = some (digitsVal 10 cs) := by
  unfold parseIntCore
  rw [splitRadix_of_digits h]
  simp only
  rw [takeWhile_of_digits h]
  rw [if_neg (by simpa [List.isEmpty_iff] using hne)]

theorem digitsVal_natToChars (n : Nat) :
    digitsVal 10 (natToChars (n + 1) n) = n := by
  unfold digitsVal
  rw [natToChars_foldl (n + 1) n 0 (Nat.lt_succ_self n)]
  simp

theorem parseIntJS_natToString (n : Nat) :
    parseIntJS (natToString n) = some (n : Int) := by
  have hd : ∀ c ∈ natToChars (n + 1) n, isDigitChar c = true :=
    natToChars_digits (n + 1) n (Nat.lt_succ_self n)
  have hne : natToChars (n + 1) n ≠ [] :=
    natToChars_ne_nil (n + 1) n (Nat.lt_succ_self n)
  simp only [parseIntJS]
  rw [show (natToString n).data = natToChars (n + 1) n from rfl,
    dropWhile_space_of_digits hd, splitSign_of_digits hne hd]
  simp [parseIntCore_digits hne hd, digitsVal_natToChars n]

theorem natToString_ne_empty (n : Nat) : natToString n ≠ "" := by
  intro h
  exact natToChars_ne_nil (n + 1) n (Nat.lt_succ_self n) (congrArg String.data h)

theorem jsNumToString_of_nat (n : Nat) :
    jsNumToString (some (n : Int)) = natToString n := by
  simp only [jsNumToString]
  rw [if_neg (by simp : ¬(n : Int) < 0)]
  simp

theorem natToString_length_ge4 {n : Nat} (h : 1000 ≤ n) :
    4 ≤ (natToString n).length := by
  have := natToChars_length_ge (n + 1) n 3 (Nat.lt_succ_self n) (by norm_num; omega)
  simpa [natToString, String.length] using this

theorem padStart_of_length_ge {s : String} {k : Nat} {c : Char} (h : k ≤ s.length) :
    padStart s k c = s := by
  rw [padStart, if_pos h]

theorem seqOfId_BC {n : Nat} (h : 1000 ≤ n) :
    seqOfId ("BC" ++ padStart (jsNumToString (some (n : Int))) 4 '0') = some (n : Int) := by
  rw [jsNumToString_of_nat, padStart_of_length_ge (natToString_length_ge4 h)]
  show parseIntJS ⟨List.drop 2 ("BC" ++ natToString n).data⟩ = some (n : Int)
  rw [String.data_append]
  show parseIntJS ⟨(natToString n).data⟩ = some (n : Int)
  exact parseIntJS_natToString n

/-! ## JSON round-trip lemmas -/

theorem orderOfJson_orderToJson {o : Order} (hq : o.quantity ≠ none)
    (ht : o.totalPrice ≠ none) : orderOfJson (orderToJson o) = some o := by
  rcases o with ⟨cn, pn, hb, qv, si, up, tp, st, od, oid⟩
  cases qv with
  | none => exact absurd rfl hq
  | some q =>
    cases tp with
    | none => exact absurd rfl ht
    | some t => rfl

theorem orderOfJson_orderToJson_inv {o o' : Order}
    (h : orderOfJson (orderToJson o) = some o') : o' = o := by
  rcases o with ⟨cn, pn, hb, qv, si, up, tp, st, od, oid⟩
  cases qv with
  | none =>
    rw [show orderOfJson (orderToJson ⟨cn, pn, hb, none, si, up, tp, st, od, oid⟩)
        = none from rfl] at h
    exact Option.noConfusion h
  | some q =>
    cases tp with
    | none =>
      rw [show orderOfJson (orderToJson ⟨cn, pn, hb, some q, si, up, none, st, od, oid⟩)
          = none from rfl] at h
      exact Option.noConfusion h
    | some t =>
      rw [show orderOfJson (orderToJson ⟨cn, pn, hb, some q, si, up, some t, st, od, oid⟩)
          = some ⟨cn, pn, hb, some q, si, up, some t, st, od, oid⟩ from rfl] at h
      exact (Option.some.inj h).symm

theorem decodeOrders_encodeOrders {os : List Order}
    (h : ∀ o ∈ os, o.quantity ≠ none ∧ o.totalPrice ≠ none) :
    decodeOrders (encodeOrders os) = some os := by
  induction os with
  | nil => rfl
  | cons o rest ih =>
    have ho := h o (List.mem_cons_self o rest)
    have ih' := ih fun x hx => h x (List.mem_cons_of_mem o hx)
    simp only [encodeOrders, decodeOrders, List.map_cons, List.mapM_cons]
    rw [orderOfJson_orderToJson ho.1 ho.2]
    simp only [encodeOrders, decodeOrders] at ih'
    rw [ih']
    rfl

theorem decodeOrders_encodeOrders_inv {os os' : List Order}
    (h : decodeOrders (encodeOrders os) = some os') : os' = os := by
  induction os generalizing os' with
  | nil =>
    have : some ([] : List Order) = some os' := h
    exact (Option.some.inj this).symm
  | cons o rest ih =>
    simp only [encodeOrders, decodeOrders, List.map_cons, List.mapM_cons] at h
    cases hy : orderOfJson (orderToJson o) with
    | none => rw [hy] at h; simp at h
    | some y =>
      rw [hy] at h
      cases hys : (rest.map orderToJson).mapM orderOfJson with
      | none => rw [hys] at h; simp at h
      | some ys =>
        rw [hys] at h
        have h3 : some (y :: ys) = some os' := h
        have h1 : y = o := orderOfJson_orderToJson_inv hy
        have h2 : ys = rest := ih (by simp only [encodeOrders, decodeOrders]; exact hys)
        rw [← Option.some.inj h3, h1, h2]

/-! ## Counter invariant along runs -/

/-- Invariant tying the in-memory counter to its persisted string: the
counter is the integer `c ≥ 1000`, and the storage key is either still
absent (then `c = 1000`, the default) or holds exactly the decimal string
of `c`. -/
def CounterInv (s : AppState) (c : Nat) : Prop :=
  s.orderCounter = some (c : Int) ∧ 1000 ≤ c ∧
    (s.storage.counterStr = none ∧ c = 1000 ∨
     s.storage.counterStr = some (natToString c))

theorem counterInv_init : CounterInv (initApp emptyStorage) 1000 :=
  ⟨rfl, le_refl _, Or.inl ⟨rfl, rfl⟩⟩

theorem generateOrderId_spec {s : AppState} {c : Nat}
    (h : s.orderCounter = some (c : Int)) :
    generateOrderId s
      = ("BC" ++ padStart (natToString (c + 1)) 4 '0',
         { s with
             orderCounter := some ((c + 1 : Nat) : Int),
             storage := { s.storage with counterStr := some (natToString (c + 1)) } }) := by
  have hmap : (some ((c : Int))).map (fun x => x + 1) = some (((c + 1 : Nat) : Int)) := by
    simp
  simp only [generateOrderId, saveOrderCounterToStorage, h, hmap, jsNumToString_of_nat]

theorem collectFormData_counter {raw : RawForm} {s : AppState} {c : Nat}
    (h : s.orderCounter = some (c : Int)) :
    (collectFormData raw s).1.orderId
        = "BC" ++ padStart (natToString (c + 1)) 4 '0' ∧
    (collectFormData raw s).2.orderCounter = some ((c + 1 : Nat) : Int) ∧
    (collectFormData raw s).2.storage.counterStr = some (natToString (c + 1)) ∧
    (collectFormData raw s).2.orders = s.orders ∧
    (collectFormData raw s).2.currentOrder = s.currentOrder ∧
    (collectFormData raw s).2.storage.ordersJson = s.storage.ordersJson := by
  simp only [collectFormData, generateOrderId_spec h]
  refine ⟨?_, ?_, ?_, ?_, ?_, ?_⟩ <;> trivial

theorem confirmOrder_counter (s : AppState) :
    (confirmOrder s).orderCounter = s.orderCounter ∧
    (confirmOrder s).storage.counterStr = s.storage.counterStr := by
  cases h : s.currentOrder <;>
    simp [confirmOrder, h, saveOrdersToStorage, closeConfirmationModal]

theorem counterInv_restart {s : AppState} {c : Nat} (h : CounterInv s c) :
    CounterInv (initApp s.storage) c := by
  obtain ⟨hc, hge, hst⟩ := h
  refine ⟨?_, hge, ?_⟩
  · show loadOrderCounterFromStorage s.storage = some (c : Int)
    rcases hst with ⟨hn, hq⟩ | hs
    · subst hq
      simp [loadOrderCounterFromStorage, hn]
    · simp only [loadOrderCounterFromStorage, hs]
      rw [if_neg (natToString_ne_empty c)]
      exact parseIntJS_natToString c
  · rcases hst with ⟨hn, hq⟩ | hs
    · exact Or.inl ⟨hn, hq⟩
    · exact Or.inr hs

theorem runIds_spec :
    ∀ (es : List Event) (s : AppState) (c : Nat), CounterInv s c →
      (∀ id0 ∈ runIds s es, ∃ n : Nat, c < n ∧ seqOfId id0 = some (n : Int)) ∧
      List.Pairwise
        (fun a b => ∃ x y : Int, seqOfId a = some x ∧ seqOfId b = some y ∧ x < y)
        (runIds s es) := by
  intro es
  induction es with
  | nil => intro s c _; exact ⟨by simp [runIds], by simp [runIds]⟩
  | cons e rest ih =>
    intro s c h
    obtain ⟨hc, hge, hst⟩ := h
    cases e with
    | submit raw =>
      by_cases hv : (validateForm raw).isValid = true
      · obtain ⟨hid, hcnt, hcs, _, _, hoj⟩ :=
          @collectFormData_counter raw s c hc
        have hinv : CounterInv (stepEvent s (Event.submit raw)) (c + 1) := by
          refine ⟨?_, by omega, Or.inr ?_⟩
          · simpa [stepEvent, handleFormSubmit, hv] using hcnt
          · simpa [stepEvent, handleFormSubmit, hv] using hcs
        obtain ⟨hmem, hpair⟩ := ih _ _ hinv
        have hseq : seqOfId (collectFormData raw s).1.orderId
            = some ((c + 1 : Nat) : Int) := by
          rw [hid, ← jsNumToString_of_nat]
          exact seqOfId_BC (by omega)
        constructor
        · intro id0 hid0
          simp only [runIds, submitIds, hv, if_pos, List.singleton_append,
            List.mem_cons] at hid0
          rcases hid0 with rfl | hid0
          · exact ⟨c + 1, by omega, hseq⟩
          · obtain ⟨n, hn, hsn⟩ := hmem id0 hid0
            exact ⟨n, by omega, hsn⟩
        · show List.Pairwise _ (submitIds s (Event.submit raw)
            ++ runIds (stepEvent s (Event.submit raw)) rest)
          simp only [submitIds, hv, if_pos, List.singleton_append]
          refine List.pairwise_cons.mpr ⟨?_, hpair⟩
          intro b hb
          obtain ⟨n, hn, hsb⟩ := hmem b hb
          exact ⟨((c + 1 : Nat) : Int), (n : Int), hseq, hsb, by exact_mod_cast hn⟩
      · have hstep : stepEvent s (Event.submit raw) = s := by
          simp [stepEvent, handleFormSubmit, hv]
        have hids : runIds s (Event.submit raw :: rest) = runIds s rest := by
          simp [runIds, submitIds, hv, hstep]
        rw [hids]
        exact ih s c ⟨hc, hge, hst⟩
    | confirm =>
      have hcc := confirmOrder_counter s
      have hinv : CounterInv (stepEvent s Event.confirm) c :=
        ⟨by rw [show stepEvent s Event.confirm = confirmOrder s from rfl, hcc.1]; exact hc,
         hge, by rw [show stepEvent s Event.confirm = confirmOrder s from rfl, hcc.2]; exact hst⟩
      obtain ⟨hmem, hpair⟩ := ih _ _ hinv
      exact ⟨fun id0 hid0 => hmem id0 (by simpa [runIds, submitIds] using hid0),
        by simpa [runIds, submitIds] using hpair⟩
    | cancel =>
      have hinv : CounterInv (stepEvent s Event.cancel) c :=
        ⟨hc, hge, hst⟩
      obtain ⟨hmem, hpair⟩ := ih _ _ hinv
      exact ⟨fun id0 hid0 => hmem id0 (by simpa [runIds, submitIds] using hid0),
        by simpa [runIds, submitIds] using hpair⟩
    | restart =>
      have hinv : CounterInv (stepEvent s Event.restart) c :=
        counterInv_restart ⟨hc, hge, hst⟩
      obtain ⟨hmem, hpair⟩ := ih _ _ hinv
      exact ⟨fun id0 hid0 => hmem id0 (by simpa [runIds, submitIds] using hid0),
        by simpa [runIds, submitIds] using hpair⟩

/-! ## Status invariant along runs -/

theorem loadOrders_congr {st st' : Storage} (h : st.ordersJson = st'.ordersJson) :
    loadOrdersFromStorage st = loadOrdersFromStorage st' := by
  unfold loadOrdersFromStorage
  rw [h]

/-- Every order anywhere in the system — in the in-memory list, held as the
draft, or recoverable from the persisted serialization — has status
`"Pending"`. -/
def StatusInv (s : AppState) : Prop :=
  (∀ o ∈ s.orders, o.status = "Pending") ∧
  (∀ o, s.currentOrder = some o → o.status = "Pending") ∧
  (∀ o ∈ loadOrdersFromStorage s.storage, o.status = "Pending")

theorem statusInv_init : StatusInv (initApp emptyStorage) := by
  refine ⟨?_, ?_, ?_⟩ <;> intro o ho <;>
    simp [initApp, emptyStorage, loadOrdersFromStorage] at ho

theorem statusInv_step {s : AppState} (h : StatusInv s) (e : Event) :
    StatusInv (stepEvent s e) := by
  obtain ⟨ho, hd, hl⟩ := h
  cases e with
  | submit raw =>
    by_cases hv : (validateForm raw).isValid = true
    · show StatusInv (handleFormSubmit raw s)
      unfold handleFormSubmit
      rw [if_pos hv]
      refine ⟨?_, ?_, ?_⟩
      · intro o hoo
        exact ho o (by exact hoo)
      · intro o hoo
        have : some (collectFormData raw s).1 = some o := hoo
        rw [← Option.some.inj this]
        rfl
      · intro o hoo
        refine hl o ?_
        rwa [@loadOrders_congr (collectFormData raw s).2.storage s.storage rfl] at hoo
    · show StatusInv (handleFormSubmit raw s)
      unfold handleFormSubmit
      rw [if_neg hv]
      exact ⟨ho, hd, hl⟩
  | confirm =>
    show StatusInv (confirmOrder s)
    cases hcur : s.currentOrder with
    | none =>
      have hconf : confirmOrder s = s := by
        unfold confirmOrder
        rw [hcur]
      rw [hconf]
      exact ⟨ho, hd, hl⟩
    | some o =>
      have hop : o.status = "Pending" := hd o hcur
      have hall : ∀ x ∈ o :: s.orders, x.status = "Pending" := by
        intro x hx
        rcases List.mem_cons.mp hx with rfl | hx
        · exact hop
        · exact ho x hx
      have hconf : confirmOrder s
          = closeConfirmationModal (saveOrdersToStorage
              { s with orders := o :: s.orders, currentOrder := some o }) := by
        unfold confirmOrder
        rw [hcur]
      rw [hconf]
      refine ⟨?_, ?_, ?_⟩
      · intro x hx
        exact hall x (by exact hx)
      · intro x hx
        exact Option.noConfusion hx
      · intro x hx
        have hx2 : x ∈ (decodeOrders (encodeOrders (o :: s.orders))).getD [] := hx
        cases hdec : decodeOrders (encodeOrders (o :: s.orders)) with
        | none => rw [hdec] at hx2; simp at hx2
        | some ys =>
          rw [hdec] at hx2
          have hys : ys = o :: s.orders := decodeOrders_encodeOrders_inv hdec
          subst hys
          exact hall x (by simpa using hx2)
  | cancel =>
    refine ⟨ho, ?_, hl⟩
    intro o hoo
    exact Option.noConfusion hoo
  | restart =>
    refine ⟨?_, ?_, ?_⟩
    · intro o hoo
      exact hl o (by exact hoo)
    · intro o hoo
      exact Option.noConfusion hoo
    · intro o hoo
      exact hl o (by exact hoo)

theorem statusInv_run (s : AppState) (h : StatusInv s) (es : List Event) :
    StatusInv (runState s es) := by
  induction es generalizing s with
  | nil => exact h
  | cons e rest ih => exact ih (stepEvent s e) (statusInv_step h e)

/-! ## Orders are never mutated after they are appended

An event either leaves the order list alone or prepends one new order (so
the previous list survives as a suffix, every element unchanged field for
field); a restart rebuilds the list from storage and — for orders whose
numeric fields are numbers, as in C5 — reproduces it exactly. -/

theorem runState_append (s : AppState) (es es' : List Event) :
    runState s (es ++ es') = runState (runState s es) es' := by
  induction es generalizing s with
  | nil => rfl
  | cons e t ih =>
    simp only [List.cons_append, runState]
    exact ih (stepEvent s e)

theorem orders_suffix_step (s : AppState) (e : Event) (h : e ≠ Event.restart) :
    s.orders <:+ (stepEvent s e).orders := by
  cases e with
  | submit raw =>
    show s.orders <:+ (handleFormSubmit raw s).orders
    unfold handleFormSubmit
    by_cases hv : (validateForm raw).isValid = true
    · rw [if_pos hv]
      exact List.suffix_refl s.orders
    · rw [if_neg hv]
  | confirm =>
    show s.orders <:+ (confirmOrder s).orders
    cases hcur : s.currentOrder with
    | none =>
      have heq : confirmOrder s = s := by
        unfold confirmOrder
        rw [hcur]
      rw [heq]
    | some o =>
      have hconf : confirmOrder s
          = closeConfirmationModal (saveOrdersToStorage
              { s with orders := o :: s.orders, currentOrder := some o }) := by
        unfold confirmOrder
        rw [hcur]
      rw [hconf]
      exact List.suffix_cons o s.orders
  | cancel => exact List.suffix_refl s.orders
  | restart => exact absurd rfl h

/-- Conditional synchrony between the in-memory list and storage: whenever
every in-memory order has non-`NaN` numeric fields, the persisted
serialization decodes to exactly the in-memory list. -/
def StoreSync (s : AppState) : Prop :=
  (∀ o ∈ s.orders, o.quantity ≠ none ∧ o.totalPrice ≠ none) →
    loadOrdersFromStorage s.storage = s.orders

theorem storeSync_init : StoreSync (initApp emptyStorage) := fun _ => rfl

theorem storeSync_step {s : AppState} (h : StoreSync s) (e : Event) :
    StoreSync (stepEvent s e) := by
  cases e with
  | submit raw =>
    show StoreSync (handleFormSubmit raw s)
    unfold handleFormSubmit
    by_cases hv : (validateForm raw).isValid = true
    · rw [if_pos hv]
      intro hwf
      have h1 : loadOrdersFromStorage (collectFormData raw s).2.storage
          = loadOrdersFromStorage s.storage :=
        @loadOrders_congr (collectFormData raw s).2.storage s.storage rfl
      exact h1.trans (h hwf)
    · rw [if_neg hv]
      exact h
  | confirm =>
    show StoreSync (confirmOrder s)
    cases hcur : s.currentOrder with
    | none =>
      have heq : confirmOrder s = s := by
        unfold confirmOrder
        rw [hcur]
      rw [heq]
      exact h
    | some o =>
      have hconf : confirmOrder s
          = closeConfirmationModal (saveOrdersToStorage
              { s with orders := o :: s.orders, currentOrder := some o }) := by
        unfold confirmOrder
        rw [hcur]
      rw [hconf]
      intro hwf
      have hwf2 : ∀ x ∈ o :: s.orders, x.quantity ≠ none ∧ x.totalPrice ≠ none := hwf
      show (decodeOrders (encodeOrders (o :: s.orders))).getD []
          = (closeConfirmationModal (saveOrdersToStorage
              { s with orders := o :: s.orders, currentOrder := some o })).orders
      rw [decodeOrders_encodeOrders hwf2]
      rfl
  | cancel => exact h
  | restart =>
    intro _
    rfl

theorem storeSync_run (es : List Event) :
    StoreSync (runState (initApp emptyStorage) es) := by
  have haux : ∀ (es' : List Event) (s : AppState), StoreSync s →
      StoreSync (runState s es') := by
    intro es'
    induction es' with
    | nil => intro s hs; exact hs
    | cons e t ih => intro s hs; exact ih (stepEvent s e) (storeSync_step hs e)
  exact haux es (initApp emptyStorage) storeSync_init

/-! ## The specification's phone rule, word for word

For the refinement claim about the phone validator, the following
definitions transcribe the specification's description: the input is valid
iff it is non-empty and matches either (a) *on the string itself* an
optional leading `+`, a first digit `1`-`9` and up to 15 further digits
with no other characters, or (b) *after stripping whitespace* at least 10
characters drawn from digits and the punctuation set `()-`. -/

/-- Rule (a) of the specification (identical in content to the regex's
first alternative). -/
def claimIntl (cs : List Char) : Bool :=
  let cs1 := match cs with
    | '+' :: rest => rest
    | other => other
  match cs1 with
  | [] => false
  | d :: ds => (49 ≤ d.toNat && d.toNat ≤ 57) && ds.length ≤ 15 && ds.all isDigitChar

/-- The character set of rule (b): digits and `(`, `)`, `-`. -/
def claimLooseChar (c : Char) : Bool :=
  isDigitChar c || c = '-' || c = '(' || c = ')'

/-- Rule (b) of the specification. -/
def claimLoose (cs : List Char) : Bool :=
  10 ≤ cs.length && cs.all claimLooseChar

/-- The specification's phone validity predicate, as worded: rule (a) on
the raw string, rule (b) on the whitespace-stripped string. -/
def claimPhoneValid (p : String) : Bool :=
  (!(p = "")) && (claimIntl p.data || claimLoose (stripSpaces p).data)

theorem stripSpaces_no_space (p : String) :
    ∀ c ∈ (stripSpaces p).data, isJsSpace c = false := by
  intro c hc
  have hc2 := List.of_mem_filter hc
  simpa using hc2

theorem looseChar_congr {c : Char} (h : isJsSpace c = false) :
    isLooseChar c = claimLooseChar c := by
  unfold isLooseChar claimLooseChar
  rw [h]
  simp

theorem allLoose_congr {l : List Char} (h : ∀ c ∈ l, isJsSpace c = false) :
    l.all isLooseChar = l.all claimLooseChar := by
  induction l with
  | nil => rfl
  | cons c t ih =>
    simp only [List.all_cons]
    rw [looseChar_congr (h c (List.mem_cons_self c t)),
      ih fun x hx => h x (List.mem_cons_of_mem c hx)]

theorem matchesLoose_eq_claimLoose {cs : List Char}
    (h : ∀ c ∈ cs, isJsSpace c = false) :
    matchesLoose cs = claimLoose cs := by
  unfold matchesLoose claimLoose
  cases cs with
  | nil => rfl
  | cons c t =>
    have hallt := allLoose_congr fun x hx => h x (List.mem_cons_of_mem c hx)
    simp only [List.all_cons, List.length_cons]
    rw [looseChar_congr (h c (List.mem_cons_self c t)), hallt]
    cases ht : t.all claimLooseChar
    · simp
    · simp only [Bool.and_true]
      by_cases hp : c = '('
      · subst hp
        rw [show claimLooseChar '(' = true from by decide]
        simp only [Bool.true_and, decide_eq_true_eq]
        by_cases h10 : 10 ≤ t.length
        · have h11 : 10 ≤ t.length + 1 := by omega
          simp [h10, h11]
        · simp [h10]
      · simp [hp]

/-! ## Sample concrete inputs for witnesses -/

/-- A concrete valid form input. -/
def sampleForm : RawForm :=
  { customerName := "Ada Lovelace", phoneNumber := "+15551234567",
    hamburgerType := some "Classic Beef Burger", quantityValue := "3",
    specialInstructions := "", orderDate := "2026-01-02T03:04:05.000Z" }

/-- A concrete well-formed order. -/
def sampleOrder : Order :=
  { customerName := "Ada Lovelace", phoneNumber := "+15551234567",
    hamburgerType := "Classic Beef Burger", quantity := some (intToDouble 3),
    specialInstructions := "None", unitPrice := ofFrac 1299 100,
    totalPrice := some (jsMul (ofFrac 1299 100) (intToDouble 3)),
    status := "Pending", orderDate := "2026-01-02T03:04:05.000Z",
    orderId := "BC1001" }

/-- A concrete state holding `sampleOrder` as the outstanding draft. -/
def sampleState : AppState :=
  { orders := [], orderCounter := some 1000, currentOrder := some sampleOrder,
    storage := emptyStorage }

/-- `sampleForm` with the phone field set to `"123"`. -/
def phone123Form : RawForm := { sampleForm with phoneNumber := "123" }

/-- `sampleForm` with an empty phone field. -/
def emptyPhoneForm : RawForm := { sampleForm with phoneNumber := "" }

/-! ## Claim theorems -/

/-- C1, counterexample: the claim says the validator rejects `"123"`, but the
regex branch `^[\+]?[1-9][\d]{0,15}$` accepts it (`1` then two digits), and
`validateForm` consequently reports no phone error for it. -/
theorem phone_123_accepted :
    isValidPhoneNumber "123" = true ∧
    (validateForm phone123Form).phoneError = none := by
  decide

/-- C1 (amended): the validator accepts `"+15551234567"`, `"(555) 123-4567"`
*and* `"123"`; it rejects only `""` among the claim's examples, and
`validateForm` marks the phone field invalid (as required) for `""`. -/
theorem phone_examples :
    isValidPhoneNumber "+15551234567" = true ∧
    isValidPhoneNumber "(555) 123-4567" = true ∧
    isValidPhoneNumber "123" = true ∧
    isValidPhoneNumber "" = false ∧
    (validateForm emptyPhoneForm).phoneError = some "Phone number is required" ∧
    (validateForm emptyPhoneForm).isValid = false := by
  decide

/-- C2: along any event sequence from fresh storage, the assigned order ids
carry strictly increasing sequence numbers, and no id string is ever
assigned twice. -/
theorem orderIds_strictly_increasing (es : List Event) :
    List.Pairwise
      (fun a b => ∃ x y : Int, seqOfId a = some x ∧ seqOfId b = some y ∧ x < y)
      (runIds (initApp emptyStorage) es) ∧
    (runIds (initApp emptyStorage) es).Nodup := by
  obtain ⟨hmem, hpair⟩ := runIds_spec es (initApp emptyStorage) 1000 counterInv_init
  refine ⟨hpair, hpair.imp ?_⟩
  intro a b hR heq
  obtain ⟨x, y, hx, hy, hxy⟩ := hR
  rw [heq, hy] at hx
  have := Option.some.inj hx
  omega

/-- Witness for C2 at a concrete event sequence. -/
theorem orderIds_strictly_increasing_witness :
    List.Pairwise
      (fun a b => ∃ x y : Int, seqOfId a = some x ∧ seqOfId b = some y ∧ x < y)
      (runIds (initApp emptyStorage)
        [Event.submit sampleForm, Event.restart, Event.submit sampleForm]) ∧
    (runIds (initApp emptyStorage)
      [Event.submit sampleForm, Event.restart, Event.submit sampleForm]).Nodup :=
  orderIds_strictly_increasing
    [Event.submit sampleForm, Event.restart, Event.submit sampleForm]

/-- C3: cancelling (or editing/dismissing) right after a valid submit leaves
the order list and its persisted serialization exactly as before the submit
and discards the draft, while the counter — in memory and in storage — keeps
the increment performed when the draft was built. -/
theorem cancel_preserves_store_and_counter (s : AppState) (raw : RawForm)
    (hv : (validateForm raw).isValid = true) :
    (closeConfirmationModal (handleFormSubmit raw s)).orders = s.orders ∧
    (closeConfirmationModal (handleFormSubmit raw s)).storage.ordersJson
      = s.storage.ordersJson ∧
    (closeConfirmationModal (handleFormSubmit raw s)).currentOrder = none ∧
    (closeConfirmationModal (handleFormSubmit raw s)).orderCounter
      = s.orderCounter.map (fun x => x + 1) ∧
    (closeConfirmationModal (handleFormSubmit raw s)).storage.counterStr
      = some (jsNumToString (s.orderCounter.map (fun x => x + 1))) := by
  unfold handleFormSubmit
  rw [if_pos hv]
  exact ⟨rfl, rfl, rfl, rfl, rfl⟩

/-- Witness for C3 at a concrete state and form. -/
theorem cancel_preserves_store_and_counter_witness :
    (closeConfirmationModal (handleFormSubmit sampleForm (initApp emptyStorage))).orders
      = (initApp emptyStorage).orders ∧
    (closeConfirmationModal (handleFormSubmit sampleForm (initApp emptyStorage))).storage.ordersJson
      = (initApp emptyStorage).storage.ordersJson ∧
    (closeConfirmationModal (handleFormSubmit sampleForm (initApp emptyStorage))).currentOrder
      = none ∧
    (closeConfirmationModal (handleFormSubmit sampleForm (initApp emptyStorage))).orderCounter
      = (initApp emptyStorage).orderCounter.map (fun x => x + 1) ∧
    (closeConfirmationModal (handleFormSubmit sampleForm (initApp emptyStorage))).storage.counterStr
      = some (jsNumToString ((initApp emptyStorage).orderCounter.map (fun x => x + 1))) :=
  cancel_preserves_store_and_counter (initApp emptyStorage) sampleForm (by decide)

/-- C4: with an outstanding draft, the first confirm appends it exactly once
and clears the draft; a second confirm is a complete no-op (the state,
including the order list and persisted storage, is unchanged). -/
theorem confirm_idempotent (s : AppState) (o : Order)
    (h : s.currentOrder = some o) :
    (confirmOrder s).orders = o :: s.orders ∧
    (confirmOrder s).currentOrder = none ∧
    confirmOrder (confirmOrder s) = confirmOrder s := by
  have hconf : confirmOrder s
      = closeConfirmationModal (saveOrdersToStorage
          { s with orders := o :: s.orders, currentOrder := some o }) := by
    unfold confirmOrder
    rw [h]
  rw [hconf]
  exact ⟨rfl, rfl, rfl⟩

/-- Witness for C4 at a concrete state. -/
theorem confirm_idempotent_witness :
    (confirmOrder sampleState).orders = sampleOrder :: sampleState.orders ∧
    (confirmOrder sampleState).currentOrder = none ∧
    confirmOrder (confirmOrder sampleState) = confirmOrder sampleState :=
  confirm_idempotent sampleState sampleOrder rfl

/-- C5: confirming a draft (unshift + save) and then reloading from storage
(a restart) yields an order list whose first element is the draft,
field for field, and whose length grew by exactly one.  The hypotheses state
that the numeric fields of the involved orders are actual numbers (not
`NaN`), which is what the claim's "numeric fields still numbers" refers to;
a `NaN` field would serialize to `null` and not read back. -/
theorem append_then_load_roundtrip (s : AppState) (o : Order)
    (hc : s.currentOrder = some o)
    (hwf : ∀ x ∈ o :: s.orders, x.quantity ≠ none ∧ x.totalPrice ≠ none) :
    (initApp (confirmOrder s).storage).orders.head? = some o ∧
    (initApp (confirmOrder s).storage).orders.length = s.orders.length + 1 := by
  have hconf : confirmOrder s
      = closeConfirmationModal (saveOrdersToStorage
          { s with orders := o :: s.orders, currentOrder := some o }) := by
    unfold confirmOrder
    rw [hc]
  rw [hconf]
  have hdec := decodeOrders_encodeOrders hwf
  constructor
  · show ((decodeOrders (encodeOrders (o :: s.orders))).getD []).head? = some o
    rw [hdec]
    rfl
  · show ((decodeOrders (encodeOrders (o :: s.orders))).getD []).length
        = s.orders.length + 1
    rw [hdec]
    simp

/-- Witness for C5 at a concrete state and order. -/
theorem append_then_load_roundtrip_witness :
    (initApp (confirmOrder sampleState).storage).orders.head? = some sampleOrder ∧
    (initApp (confirmOrder sampleState).storage).orders.length
      = sampleState.orders.length + 1 :=
  append_then_load_roundtrip sampleState sampleOrder rfl (by decide)

/-- C6, counterexample: the claim applies rule (a) to the raw string, but
the code strips whitespace *before* matching both alternatives, so
`"1 2"` (stripped to `"12"`, which matches rule (a)) is accepted by the
code while the claim's predicate rejects it. -/
theorem phone_spec_mismatch :
    isValidPhoneNumber "1 2" = true ∧ claimPhoneValid "1 2" = false := by
  decide

/-- C6 (amended): the validator accepts a string iff its whitespace-stripped
form matches rule (a) or rule (b) of the specification (so rule (a), too, is
applied after stripping; non-emptiness is subsumed, as the empty string
matches neither rule). -/
theorem isValidPhoneNumber_eq_spec_stripped (p : String) :
    isValidPhoneNumber p
      = (claimIntl (stripSpaces p).data || claimLoose (stripSpaces p).data) := by
  show (matchesIntl (stripSpaces p).data || matchesLoose (stripSpaces p).data) = _
  have h1 : matchesIntl (stripSpaces p).data = claimIntl (stripSpaces p).data := rfl
  rw [h1, matchesLoose_eq_claimLoose (stripSpaces_no_space p)]

/-- Witness for C6 at a concrete phone string. -/
theorem isValidPhoneNumber_eq_spec_stripped_witness :
    isValidPhoneNumber "(555) 123-4567"
      = (claimIntl (stripSpaces "(555) 123-4567").data
          || claimLoose (stripSpaces "(555) 123-4567").data) :=
  isValidPhoneNumber_eq_spec_stripped "(555) 123-4567"

/-- C7, counterexample: for the stored string `"abc"` (present but not a
well-formed integer), `parseInt` yields `NaN`, so the loader returns `NaN`
(`none`), not the claimed default 1000. -/
theorem loadCounter_corrupt_not_default :
    loadOrderCounterFromStorage ⟨none, some "abc"⟩ = none ∧
    loadOrderCounterFromStorage ⟨none, some "abc"⟩ ≠ some 1000 := by
  decide

/-- C7 (amended): the loader never raises (it is a total function of the
storage state); it returns 1000 when the key is absent *or the stored string
is empty* (both falsy in JS); for any other stored string it returns
`parseInt` of it — in particular the stored integer itself when the string
is the decimal representation of an integer, but `NaN` (not 1000) when no
leading integer can be parsed. -/
theorem loadOrderCounterFromStorage_spec (st : Storage) :
    (st.counterStr = none → loadOrderCounterFromStorage st = some 1000) ∧
    (st.counterStr = some "" → loadOrderCounterFromStorage st = some 1000) ∧
    (∀ str, st.counterStr = some str → str ≠ "" →
      loadOrderCounterFromStorage st = parseIntJS str) ∧
    (∀ n : Nat, st.counterStr = some (natToString n) →
      loadOrderCounterFromStorage st = some (n : Int)) := by
  refine ⟨?_, ?_, ?_, ?_⟩
  · intro h
    simp [loadOrderCounterFromStorage, h]
  · intro h
    simp [loadOrderCounterFromStorage, h]
  · intro str h hne
    simp only [loadOrderCounterFromStorage, h]
    rw [if_neg hne]
  · intro n h
    simp only [loadOrderCounterFromStorage, h]
    rw [if_neg (natToString_ne_empty n)]
    exact parseIntJS_natToString n

/-- Witness for C7 at a concrete stored counter string. -/
theorem loadOrderCounterFromStorage_spec_witness :
    loadOrderCounterFromStorage ⟨none, some "1234"⟩ = some ((1234 : Nat) : Int) :=
  (loadOrderCounterFromStorage_spec ⟨none, some "1234"⟩).2.2.2 1234 (by decide)

/-- C8: for every valid input whose quantity parses to an integer `k`, the
built order's `totalPrice` is exactly the double product
`unitPrice * quantity`; in particular for "Classic Beef Burger" with
quantity 3, `unitPrice` is the double 12.99 and `totalPrice` the double
38.97 (the product is exact here: `12.99 * 3 == 38.97` in binary64). -/
theorem build_totalPrice_spec (s : AppState) (raw : RawForm) (k : Int)
    (_hv : (validateForm raw).isValid = true)
    (hq : parseIntJS raw.quantityValue = some k) :
    (collectFormData raw s).1.totalPrice
      = some (jsMul ((collectFormData raw s).1.unitPrice) (intToDouble k)) ∧
    (raw.hamburgerType = some "Classic Beef Burger" → raw.quantityValue = "3" →
      (collectFormData raw s).1.unitPrice = ofFrac 1299 100 ∧
      (collectFormData raw s).1.totalPrice = some (ofFrac 3897 100)) := by
  constructor
  · show ((parseIntJS raw.quantityValue).map intToDouble).map
        (fun q => jsMul (catalogPrice (raw.hamburgerType.getD "")) q)
      = some (jsMul (catalogPrice (raw.hamburgerType.getD "")) (intToDouble k))
    rw [hq]
    rfl
  · intro hb h3
    constructor
    · show catalogPrice (raw.hamburgerType.getD "") = ofFrac 1299 100
      rw [hb]
      decide
    · show ((parseIntJS raw.quantityValue).map intToDouble).map
          (fun q => jsMul (catalogPrice (raw.hamburgerType.getD "")) q)
        = some (ofFrac 3897 100)
      rw [hb, h3]
      decide

/-- Witness for C8 at the concrete sample form (Classic Beef Burger, 3). -/
theorem build_totalPrice_spec_witness :
    (collectFormData sampleForm (initApp emptyStorage)).1.totalPrice
      = some (jsMul ((collectFormData sampleForm (initApp emptyStorage)).1.unitPrice)
          (intToDouble 3)) ∧
    (collectFormData sampleForm (initApp emptyStorage)).1.unitPrice
      = ofFrac 1299 100 ∧
    (collectFormData sampleForm (initApp emptyStorage)).1.totalPrice
      = some (ofFrac 3897 100) := by
  have h := build_totalPrice_spec (initApp emptyStorage) sampleForm 3
    (by decide) (by decide)
  exact ⟨h.1, (h.2 rfl rfl).1, (h.2 rfl rfl).2⟩

/-- The builder restriction `catalogPrice` agrees with the faithful lookup
`getBurgerPrice` on every key that is not an `Object.prototype` member
name. -/
theorem getBurgerPrice_eq_num {t : String} (h : t ∉ objectPrototypeKeys) :
    getBurgerPrice t = JsValue.num (catalogPrice t) := by
  unfold getBurgerPrice catalogPrice
  cases hl : burgerPrices.lookup t with
  | some p => rfl
  | none =>
    rw [if_neg h]
    rfl

/-- C9, counterexample: for the input `"toString"` the lookup
`prices["toString"]` finds the inherited `Object.prototype.toString`
function — a truthy value — so the code returns it, not the default 12.99;
the claim's universal 12.99 fallback is therefore false at that input
(likewise at the other eleven inherited property names). -/
theorem getBurgerPrice_toString_inherited :
    getBurgerPrice "toString" = JsValue.inherited "toString" ∧
    getBurgerPrice "toString" ≠ JsValue.num (ofFrac 1299 100) := by
  decide

/-- C9 (amended): the price lookup returns the four catalog prices for the
four catalog names; for every other string that is not one of the twelve
`Object.prototype` member names it returns the default 12.99 without
failing; for those twelve names it returns the inherited member (a truthy
non-price value) rather than the default. -/
theorem getBurgerPrice_spec :
    getBurgerPrice "Classic Beef Burger" = JsValue.num (ofFrac 1299 100) ∧
    getBurgerPrice "Grilled Chicken Burger" = JsValue.num (ofFrac 1199 100) ∧
    getBurgerPrice "Plant-Based Veggie Burger" = JsValue.num (ofFrac 1099 100) ∧
    getBurgerPrice "Deluxe BBQ Burger" = JsValue.num (ofFrac 1599 100) ∧
    (∀ t : String,
      t ∉ ["Classic Beef Burger", "Grilled Chicken Burger",
           "Plant-Based Veggie Burger", "Deluxe BBQ Burger"] →
      t ∉ objectPrototypeKeys →
      getBurgerPrice t = JsValue.num (ofFrac 1299 100)) ∧
    (∀ t ∈ objectPrototypeKeys, getBurgerPrice t = JsValue.inherited t) := by
  refine ⟨by decide, by decide, by decide, by decide, ?_, ?_⟩
  · intro t ht hp
    simp only [List.mem_cons, List.not_mem_nil, or_false, not_or] at ht
    obtain ⟨h1, h2, h3, h4⟩ := ht
    unfold getBurgerPrice
    have hl : burgerPrices.lookup t = none := by
      simp [burgerPrices, List.lookup, beq_eq_false_iff_ne.mpr h1,
        beq_eq_false_iff_ne.mpr h2, beq_eq_false_iff_ne.mpr h3,
        beq_eq_false_iff_ne.mpr h4]
    rw [hl]
    rw [if_neg hp]
  · intro t ht
    fin_cases ht <;> decide

/-- Witness for C9 at a concrete non-catalog, non-inherited item name. -/
theorem getBurgerPrice_spec_witness :
    getBurgerPrice "Pastrami on Rye" = JsValue.num (ofFrac 1299 100) :=
  getBurgerPrice_spec.2.2.2.2.1 "Pastrami on Rye" (by decide) (by decide)

/-- C10: along any event sequence from fresh storage, (i) every order in the
in-memory list, the outstanding draft (if any), and every order recoverable
from the persisted serialization has status exactly `"Pending"` — no
operation ever assigns any other status value (in particular never
`"Confirmed"`); and orders are never mutated after being appended:
(ii) every non-restart event keeps the existing order list as a suffix of
the new one, each element unchanged field for field (events only prepend),
and (iii) a restart reproduces the appended orders exactly (for orders
whose numeric fields are numbers, the same scope as C5 — a `NaN` field
would not survive serialization). -/
theorem status_always_pending (es : List Event) :
    ((∀ o ∈ (runState (initApp emptyStorage) es).orders, o.status = "Pending") ∧
     (∀ o, (runState (initApp emptyStorage) es).currentOrder = some o →
       o.status = "Pending") ∧
     (∀ o ∈ loadOrdersFromStorage (runState (initApp emptyStorage) es).storage,
       o.status = "Pending")) ∧
    (∀ e, e ≠ Event.restart →
      (runState (initApp emptyStorage) es).orders
        <:+ (runState (initApp emptyStorage) (es ++ [e])).orders) ∧
    ((∀ o ∈ (runState (initApp emptyStorage) es).orders,
        o.quantity ≠ none ∧ o.totalPrice ≠ none) →
      (runState (initApp emptyStorage) (es ++ [Event.restart])).orders
        = (runState (initApp emptyStorage) es).orders) := by
  refine ⟨statusInv_run (initApp emptyStorage) statusInv_init es, ?_, ?_⟩
  · intro e he
    rw [runState_append]
    exact orders_suffix_step (runState (initApp emptyStorage) es) e he
  · intro hwf
    rw [runState_append]
    show (initApp (runState (initApp emptyStorage) es).storage).orders
        = (runState (initApp emptyStorage) es).orders
    exact storeSync_run es hwf

/-- Witness for C10 at a concrete event sequence, discharging the
non-restart and well-formedness hypotheses. -/
theorem status_always_pending_witness :
    (∀ o ∈ (runState (initApp emptyStorage)
        [Event.submit sampleForm, Event.confirm]).orders,
      o.status = "Pending") ∧
    (runState (initApp emptyStorage) [Event.submit sampleForm, Event.confirm]).orders
      <:+ (runState (initApp emptyStorage)
          ([Event.submit sampleForm, Event.confirm] ++ [Event.confirm])).orders ∧
    (runState (initApp emptyStorage)
        ([Event.submit sampleForm, Event.confirm] ++ [Event.restart])).orders
      = (runState (initApp emptyStorage) [Event.submit sampleForm, Event.confirm]).orders := by
  have h := status_always_pending [Event.submit sampleForm, Event.confirm]
  exact ⟨h.1.1, h.2.1 Event.confirm (by decide), h.2.2 (by decide)⟩
